import Mathlib

/-!
Verification of the core data layer of the `tabulate-rdf` ontology viewer
(`docs/app/core.js`), shallowly embedded in Lean.

Modelling conventions:
* RDF terms are `Term` (named node / blank node / literal with an optional
  language tag, `""` meaning "no tag", exactly as the N3 library exposes an
  empty `language` field for plain literals).
* The N3 store is the list of its quads in insertion order;
  `store.getQuads(null, null, null, null)` is the list itself.
* JavaScript strings are Lean `String`s; `toLowerCase`, `trim`, `includes`
  and `endsWith` are re-implemented over the character list so that they
  compute in the kernel.  `localeCompare` is modelled as code-point
  comparison (the default-locale behaviour on the ASCII data exercised
  here); `Array.prototype.sort`, which ECMA-262 requires to be stable, is
  modelled by a stable insertion sort.
* JS functions returning `T | null` become `Option T`; re-thrown exceptions
  cannot occur in the embedded fragments (all operations are total), so the
  embedded functions are total Lean functions.
-/

namespace TabulateRdf

/-! ## RDF terms, quads, store -/

/-- An RDF term as exposed by the N3 library: `termType` plus `value`,
and for literals the `language` field (`""` when the literal has no
language tag). -/
inductive Term where
  | namedNode (value : String)
  | blankNode (value : String)
  | literal (value : String) (language : String)
deriving DecidableEq, Repr

/-- The `value` field of a term. -/
def Term.value : Term → String
  | .namedNode v => v
  | .blankNode v => v
  | .literal v _ => v

/-- The `language` field: the literal's tag, `""` otherwise (JS reads
`undefined` on non-literals, which is falsy exactly like `""`). -/
def Term.language : Term → String
  | .literal _ lang => lang
  | _ => ""

/-- `term.termType === 'NamedNode'`. -/
def Term.isNamedNode : Term → Bool
  | .namedNode _ => true
  | _ => false

/-- `term.termType === 'Literal'`. -/
def Term.isLiteral : Term → Bool
  | .literal _ _ => true
  | _ => false

/-- `term.termType === 'NamedNode' && term.value === iri`. -/
def Term.isNamedNodeValued (t : Term) (iri : String) : Bool :=
  match t with
  | .namedNode v => decide (v = iri)
  | _ => false

/-- A quad as stored by N3 (the graph component plays no role in the
embedded code and is omitted). -/
structure Quad where
  subject : Term
  predicate : Term
  object : Term
deriving DecidableEq, Repr

/-- The in-memory store: its quads in insertion order.
`store.getQuads(null, null, null, null)` returns exactly this list. -/
abbrev Store := List Quad

/-- `store.getQuads(subject, null, null, null)`: quads whose subject term
equals the given term. -/
def getQuadsWithSubjectTerm (store : Store) (s : Term) : List Quad :=
  store.filter (fun q => decide (q.subject = s))

/-! ## JS string primitives, re-implemented so they compute in the kernel -/

/-- JS `String.prototype.toLowerCase`, per-character (ASCII case map,
which covers every string the program compares case-insensitively). -/
def jsToLower (s : String) : String := String.mk (s.data.map Char.toLower)

/-- JS `String.prototype.endsWith`. -/
def jsEndsWith (s suffixStr : String) : Bool := decide (suffixStr.data <:+ s.data)

/-- JS `String.prototype.includes` (substring containment). -/
def jsIncludes (s sub : String) : Bool := decide (sub.data <:+: s.data)

/-- The ECMA-262 whitespace and line-terminator characters recognised by
`String.prototype.trim`. -/
def jsIsWhitespaceChar (c : Char) : Bool :=
  c = ' ' || c = '\t' || c = '\n' || c = '\r' || c = '\x0b' || c = '\x0c' ||
  c = '\u00a0' || c = '\u1680' || (c ≥ '\u2000' && c ≤ '\u200a') ||
  c = '\u2028' || c = '\u2029' || c = '\u202f' || c = '\u205f' ||
  c = '\u3000' || c = '\ufeff'

/-- JS `String.prototype.trim`: strip leading and trailing whitespace. -/
def jsTrim (s : String) : String :=
  String.mk (((s.data.dropWhile jsIsWhitespaceChar).reverse.dropWhile
    jsIsWhitespaceChar).reverse)

/-- JS `a.localeCompare(b)` in the default locale on the code-point data
the program compares: negative / zero / positive per lexicographic
code-point order. -/
def localeCompare (a b : String) : Int :=
  match compare a.data b.data with
  | .lt => -1
  | .eq => 0
  | .gt => 1

/-- Stable insertion of `a` in front of the first element it sorts
before-or-equal to. -/
def insertSorted (le : α → α → Bool) (a : α) : List α → List α
  | [] => [a]
  | b :: bs => if le a b then a :: b :: bs else b :: insertSorted le a bs

/-- A stable sort; ECMA-262 requires `Array.prototype.sort` to be stable,
and a stable sort w.r.t. a consistent comparator is unique, so this is a
faithful model of the JS sort. -/
def insertionSort (le : α → α → Bool) : List α → List α
  | [] => []
  | a :: as => insertSorted le a (insertionSort le as)

/-- JS `Set` collection converted back with `Array.from`: keeps the first
occurrence of each element, in insertion order. -/
def dedupeKeepFirst (l : List String) : List String :=
  l.foldl (fun acc v => if v ∈ acc then acc else acc ++ [v]) []

/-! ## Namespace constants (`NS` in core.js) -/

def nsRdf : String := "http://www.w3.org/1999/02/22-rdf-syntax-ns#"
def nsRdfs : String := "http://www.w3.org/2000/01/rdf-schema#"
def nsOwl : String := "http://www.w3.org/2002/07/owl#"
def nsDc : String := "http://purl.org/dc/elements/1.1/"
def nsDcterms : String := "http://purl.org/dc/terms/"
def nsSkos : String := "http://www.w3.org/2004/02/skos/core#"
def nsObo : String := "http://purl.obolibrary.org/obo/"
def nsCco : String := "http://www.ontologyrepository.com/CommonCoreOntologies/"
def nsCco2 : String := "https://www.commoncoreontologies.org/"

/-! ## core.js functions -/

/-- `detectRdfFormatFromFilename`: guess the media type from the
lower-cased filename extension, falling back to Turtle. -/
def detectRdfFormatFromFilename (filename : String) : String :=
  let lower := jsToLower filename
  if jsEndsWith lower ".ttl" || jsEndsWith lower ".n3" then "text/turtle"
  else if jsEndsWith lower ".nt" then "application/n-triples"
  else if jsEndsWith lower ".nq" then "application/n-quads"
  else if jsEndsWith lower ".trig" then "application/trig"
  else "text/turtle"

/-- `isBlankNode`. -/
def isBlankNode : Term → Bool
  | .blankNode _ => true
  | _ => false

/-- `getOntologySubjectIri`: the subject of the first quad typing a
subject as `owl:Ontology`, if any. -/
def getOntologySubjectIri (store : Store) : Option String :=
  (store.find? (fun q =>
      q.predicate.isNamedNodeValued (nsRdf ++ "type") &&
      q.object.isNamedNodeValued (nsOwl ++ "Ontology"))).map
    (fun q => q.subject.value)

/-- JS truthiness of `l.language`. -/
def litHasLang (l : Term) : Bool := decide (l.language ≠ "")

/-- `l.language.toLowerCase() === 'en'`. -/
def litIsEn (l : Term) : Bool := decide (jsToLower l.language = "en")

/-- `pickBestLiteral`: prefer an `'en'`-tagged literal, then an untagged
one, then the first literal. -/
def pickBestLiteral (literals : List Term) : Option Term :=
  if literals.isEmpty then none
  else
    match (literals.filter litHasLang).find? litIsEn with
    | some en => some en
    | none =>
      match literals.find? (fun l => !litHasLang l) with
      | some noLang => some noLang
      | none => literals.head?

/-- `getQuadsForSubject`: quads whose subject is a named node with the
given IRI. -/
def getQuadsForSubject (store : Store) (subjectIri : String) : List Quad :=
  store.filter (fun q => q.subject.isNamedNodeValued subjectIri)

/-- The literal objects of the subject's quads under one predicate (the
loop body of `getPreferredLiteralForPredicates`). -/
def literalObjectsUnder (subjectQuads : List Quad) (p : String) : List Term :=
  (subjectQuads.filter (fun q =>
      q.predicate.isNamedNodeValued p && q.object.isLiteral)).map
    (fun q => q.object)

/-- The predicate-preference loop of `getPreferredLiteralForPredicates`. -/
def preferredLiteralLoop (subjectQuads : List Quad) : List String → Option String
  | [] => none
  | p :: rest =>
    match pickBestLiteral (literalObjectsUnder subjectQuads p) with
    | some best => some best.value
    | none => preferredLiteralLoop subjectQuads rest

/-- `getPreferredLiteralForPredicates`. -/
def getPreferredLiteralForPredicates (store : Store) (subjectIri : String)
    (predicateIris : List String) : Option String :=
  preferredLiteralLoop (getQuadsForSubject store subjectIri) predicateIris

/-- The predicate-preference loop of `getPreferredIriForPredicates`. -/
def preferredIriLoop (subjectQuads : List Quad) : List String → Option String
  | [] => none
  | p :: rest =>
    match ((subjectQuads.filter (fun q =>
        q.predicate.isNamedNodeValued p && q.object.isNamedNode)).map
        (fun q => q.object)).head? with
    | some iriObj => some iriObj.value
    | none => preferredIriLoop subjectQuads rest

/-- `getPreferredIriForPredicates`. -/
def getPreferredIriForPredicates (store : Store) (subjectIri : String)
    (predicateIris : List String) : Option String :=
  preferredIriLoop (getQuadsForSubject store subjectIri) predicateIris

/-- `q.predicate.termType === 'NamedNode' && predicateIris.includes(q.predicate.value)`. -/
def quadPredicateIn (q : Quad) (predicateIris : List String) : Bool :=
  match q.predicate with
  | .namedNode v => predicateIris.contains v
  | _ => false

/-- `getLiteralArrayForPredicates`: de-duplicated literal values under any
of the predicates. -/
def getLiteralArrayForPredicates (store : Store) (subjectIri : String)
    (predicateIris : List String) : List String :=
  dedupeKeepFirst (((getQuadsForSubject store subjectIri).filter
    (fun q => quadPredicateIn q predicateIris && q.object.isLiteral)).map
    (fun q => q.object.value))

/-- `getIriArrayForPredicates`: de-duplicated named-node object values
under any of the predicates. -/
def getIriArrayForPredicates (store : Store) (subjectIri : String)
    (predicateIris : List String) : List String :=
  dedupeKeepFirst (((getQuadsForSubject store subjectIri).filter
    (fun q => quadPredicateIn q predicateIris && q.object.isNamedNode &&
      !isBlankNode q.object)).map
    (fun q => q.object.value))

/-- `getAnyArrayForPredicates`: de-duplicated literal-or-IRI object values
under any of the predicates. -/
def getAnyArrayForPredicates (store : Store) (subjectIri : String)
    (predicateIris : List String) : List String :=
  dedupeKeepFirst (((getQuadsForSubject store subjectIri).filter
    (fun q => quadPredicateIn q predicateIris &&
      (q.object.isLiteral || q.object.isNamedNode))).map
    (fun q => q.object.value))

/-- The ontology-level metadata record. -/
structure OntologyMetadata where
  ontologyIri : Option String
  ontologyName : Option String
  versionIri : Option String
  versionInfo : Option String
  description : Option String
  license : Option String
  rightsHolder : Option String
deriving DecidableEq, Repr

/-- `extractOntologyMetadata`. -/
def extractOntologyMetadata (store : Store) : OntologyMetadata :=
  match getOntologySubjectIri store with
  | none =>
    { ontologyIri := none, ontologyName := none, versionIri := none,
      versionInfo := none, description := none, license := none,
      rightsHolder := none }
  | some s =>
    { ontologyIri := some s
      ontologyName := getPreferredLiteralForPredicates store s
        [nsRdfs ++ "label", nsDcterms ++ "title", nsDc ++ "title"]
      versionIri := getPreferredIriForPredicates store s
        [nsOwl ++ "versionIRI", nsDcterms ++ "hasVersion"]
      versionInfo := getPreferredLiteralForPredicates store s
        [nsOwl ++ "versionInfo", nsDcterms ++ "hasVersion"]
      description := getPreferredLiteralForPredicates store s
        [nsSkos ++ "definition", nsDcterms ++ "description", nsDc ++ "description"]
      license := getPreferredIriForPredicates store s
        [nsDcterms ++ "license", nsDcterms ++ "rights", nsDc ++ "rights",
          nsDcterms ++ "accessRights"]
      rightsHolder := getPreferredLiteralForPredicates store s
        [nsDcterms ++ "rightsHolder"] }

/-- The fixed set of element types in `shouldIncludeElementSubject`. -/
def interestingTypes : List String :=
  [nsOwl ++ "Class", nsOwl ++ "NamedIndividual", nsOwl ++ "ObjectProperty",
   nsOwl ++ "DatatypeProperty", nsOwl ++ "AnnotationProperty"]

/-- `shouldIncludeElementSubject`: a named-node subject with at least one
`rdf:type` among the interesting OWL types. -/
def shouldIncludeElementSubject (store : Store) (subject : Term) : Bool :=
  match subject with
  | .namedNode _ =>
    let types := ((getQuadsWithSubjectTerm store subject).filter (fun q =>
        q.predicate.isNamedNodeValued (nsRdf ++ "type") &&
        q.object.isNamedNode)).map (fun q => q.object.value)
    types.any (fun t => interestingTypes.contains t)
  | _ => false

/-- A table row: a JS record as an ordered list of (field, value) pairs
(JS object fields enumerate in insertion order). -/
abbrev Row := List (String × String)

/-- `row[key] ?? ''`. -/
def rowGet (r : Row) (k : String) : String := (r.lookup k).getD ""

/-- The table model returned by `buildElementTableModel`. -/
structure TableModel where
  headers : List String
  keys : List String
  rows : List Row
deriving DecidableEq, Repr

/-- `'; '.join` of a value array. -/
def joinSemi (l : List String) : String := String.intercalate "; " l

/-- The distinct named-node subject IRIs of the store, in first-occurrence
order (the `subjectTermMap` of `buildElementTableModel`). -/
def namedSubjectIris (store : Store) : List String :=
  dedupeKeepFirst ((store.filter (fun q =>
      !isBlankNode q.subject && q.subject.isNamedNode)).map
    (fun q => q.subject.value))

/-- The qualifying element subjects (`elementSubjects` in
`buildElementTableModel`), as their IRIs. -/
def elementSubjects (store : Store) : List String :=
  (namedSubjectIris store).filter
    (fun iri => shouldIncludeElementSubject store (.namedNode iri))

/-- One row of `buildElementTableModel`, before column pruning: the eleven
fixed fields in insertion order. -/
def buildRow (store : Store) (iri : String) : Row :=
  let label := getPreferredLiteralForPredicates store iri
    [nsRdfs ++ "label", nsDcterms ++ "title", nsDc ++ "title"]
  let typeArr := getIriArrayForPredicates store iri [nsRdf ++ "type"]
  let definition := getPreferredLiteralForPredicates store iri
    [nsSkos ++ "definition", nsObo ++ "IAO_0000115", nsCco ++ "definition"]
  let preferredLabel := getPreferredLiteralForPredicates store iri
    [nsSkos ++ "prefLabel", nsObo ++ "IAO_0000111"]
  let alternativeLabelArr := getLiteralArrayForPredicates store iri
    [nsSkos ++ "altLabel", nsObo ++ "IAO_0000118", nsCco ++ "alternative_label"]
  let acronymArr := getLiteralArrayForPredicates store iri
    [nsCco ++ "acronym", nsObo ++ "IAO_0000606", nsCco2 ++ "ont00001753"]
  let subClassOfArr := getIriArrayForPredicates store iri [nsRdfs ++ "subClassOf"]
  let subPropertyOfArr := getIriArrayForPredicates store iri [nsRdfs ++ "subPropertyOf"]
  let definitionSourceArr := getAnyArrayForPredicates store iri
    [nsDcterms ++ "bibliographicCitation", nsObo ++ "IAO_0000119",
     nsCco2 ++ "ont00001754", nsCco ++ "definition_source",
     nsCco2 ++ "ont00001745", nsCco ++ "doctrinal_source"]
  let isCuratedIn := getPreferredIriForPredicates store iri
    [nsCco2 ++ "ont00001760", nsRdfs ++ "isDefinedBy"]
  [("iri", iri),
   ("label", label.getD ""),
   ("type", joinSemi typeArr),
   ("definition", definition.getD ""),
   ("preferredLabel", preferredLabel.getD ""),
   ("alternativeLabel", joinSemi alternativeLabelArr),
   ("acronym", joinSemi acronymArr),
   ("subClassOf", joinSemi subClassOfArr),
   ("subPropertyOf", joinSemi subPropertyOfArr),
   ("definitionSource", joinSemi definitionSourceArr),
   ("isCuratedIn", isCuratedIn.getD "")]

/-- The fixed display headers of `buildElementTableModel`. -/
def allHeaders : List String :=
  ["iri", "label", "type", "definition", "preferred label",
   "alternative label", "acronym", "rdfs:subClassOf", "rdfs:subPropertyOf",
   "definition source", "is curated in"]

/-- The fixed field keys of `buildElementTableModel`, aligned with
`allHeaders`. -/
def allKeys : List String :=
  ["iri", "label", "type", "definition", "preferredLabel",
   "alternativeLabel", "acronym", "subClassOf", "subPropertyOf",
   "definitionSource", "isCuratedIn"]

/-- The per-column keep flags: `iri` always, any other column when some
row has a non-whitespace value for it. -/
def keepFlags (rows : List Row) : List Bool :=
  allKeys.map (fun key =>
    if key = "iri" then true
    else rows.any (fun r => decide (jsTrim (rowGet r key) ≠ "")))

/-- `list.filter((x, i) => flags[i])`: keep the entries whose positional
flag is true. -/
def filterByFlags (l : List α) (flags : List Bool) : List α :=
  (l.zip flags).filterMap (fun ab => if ab.2 then some ab.1 else none)

/-- `buildElementTableModel`. -/
def buildElementTableModel (store : Store) : TableModel :=
  let rows := (elementSubjects store).map (buildRow store)
  let flags := keepFlags rows
  let headers := filterByFlags allHeaders flags
  let keys := filterByFlags allKeys flags
  let prunedRows := rows.map (fun r => keys.map (fun k => (k, rowGet r k)))
  { headers := headers, keys := keys, rows := prunedRows }

/-! ## filterAndSortRows -/

/-- `Object.values(row).some(v => String(v).toLowerCase().includes(q))`,
for an already-lower-cased query `q`. -/
def rowMatchesQuery (q : String) (r : Row) : Bool :=
  (r.map Prod.snd).any (fun v => jsIncludes (jsToLower v) q)

/-- The filtering stage of `filterAndSortRows` (its local `filtered`):
lower-case the query and, when non-empty, keep the rows with a matching
field value. -/
def jsFilterRows (m : TableModel) (query : String) : List Row :=
  if jsToLower query ≠ "" then
    m.rows.filter (rowMatchesQuery (jsToLower query))
  else m.rows

/-- The sort comparator of `filterAndSortRows`: `localeCompare` on the
resolved key's values, negated for any direction other than `'asc'`. -/
def jsSortCompare (key sortDirection : String) (a b : Row) : Int :=
  let cmp := localeCompare (rowGet a key) (rowGet b key)
  if sortDirection = "asc" then cmp else -cmp

/-- `filterAndSortRows` (value level; the local `filtered` is
`jsFilterRows m query`). -/
def filterAndSortRows (m : TableModel) (query : String)
    (sortIndex : Option Int) (sortDirection : String) : List Row :=
  match sortIndex with
  | none => jsFilterRows m query
  | some si =>
    if si < 0 ∨ (m.headers.length : Int) ≤ si then jsFilterRows m query
    else
      match m.keys.get? si.toNat with
      | none => jsFilterRows m query
      | some key =>
        if key = "" then jsFilterRows m query
        else insertionSort
          (fun a b => jsSortCompare key sortDirection a b ≤ 0)
          (jsFilterRows m query)

/-! ## filterAndSortRows with array identity

To settle the frame claim ("returns a new sequence; does not mutate the
model") the function is re-read operationally: row arrays live in a heap
indexed by reference, `model.rows` is a reference into that heap,
`let filtered = model.rows` copies the reference, `.filter` and the
spread-copy `[...filtered]` allocate fresh references, and
`Array.prototype.sort` mutates only the fresh spread copy (modelled as
allocating the copy already sorted, which is observationally identical
since nothing reads the copy between its creation and the sort). -/

/-- The heap of row arrays; an array reference is an index into it. -/
abbrev RowsHeap := List (List Row)

/-- A table model whose `rows` field is an array reference. -/
structure ModelRef where
  headers : List String
  keys : List String
  rowsRef : Nat
deriving DecidableEq, Repr

/-- The filtering stage of the operational reading: `let filtered =
model.rows` copies the reference; a non-empty query makes `.filter`
allocate a fresh array at the end of the heap. -/
def allocStep1 (heap : RowsHeap) (m : ModelRef) (query : String) :
    RowsHeap × Nat :=
  if jsToLower query ≠ "" then
    (heap ++ [((heap.get? m.rowsRef).getD []).filter
      (rowMatchesQuery (jsToLower query))], heap.length)
  else (heap, m.rowsRef)

/-- Operational `filterAndSortRows`: returns the final heap and the
reference of the returned array. -/
def filterAndSortRowsAlloc (heap : RowsHeap) (m : ModelRef) (query : String)
    (sortIndex : Option Int) (sortDirection : String) : RowsHeap × Nat :=
  match sortIndex with
  | none => allocStep1 heap m query
  | some si =>
    if si < 0 ∨ (m.headers.length : Int) ≤ si then allocStep1 heap m query
    else
      match m.keys.get? si.toNat with
      | none => allocStep1 heap m query
      | some key =>
        if key = "" then allocStep1 heap m query
        else
          ((allocStep1 heap m query).1 ++ [insertionSort
            (fun a b => jsSortCompare key sortDirection a b ≤ 0)
            (((allocStep1 heap m query).1.get?
              (allocStep1 heap m query).2).getD [])],
           (allocStep1 heap m query).1.length)

/-! ## toPascalCase -/

/-- `/[^A-Za-z0-9]/` complement: the characters a PascalCase word keeps. -/
def isJsAlnum (c : Char) : Bool :=
  (c ≥ 'A' && c ≤ 'Z') || (c ≥ 'a' && c ≤ 'z') || (c ≥ '0' && c ≤ '9')

mutual

/-- `replace(/[^A-Za-z0-9]+/g, ' ')`, outside a separator run. -/
def collapseGo : List Char → List Char
  | [] => []
  | c :: cs => if isJsAlnum c then c :: collapseGo cs else ' ' :: collapseSkip cs

/-- `replace(/[^A-Za-z0-9]+/g, ' ')`, inside a separator run already
replaced by one space. -/
def collapseSkip : List Char → List Char
  | [] => []
  | c :: cs => if isJsAlnum c then c :: collapseGo cs else collapseSkip cs

end

/-- `replace(/[^A-Za-z0-9]+/g, ' ')` on a string. -/
def collapseNonAlnum (s : String) : String := String.mk (collapseGo s.data)

mutual

/-- JS `split(/\s+/)`, scanning a piece (`acc` holds its reversed
characters). -/
def splitWsGo : List Char → List Char → List String
  | [], acc => [String.mk acc.reverse]
  | c :: cs, acc =>
    if jsIsWhitespaceChar c then String.mk acc.reverse :: splitWsDrop cs
    else splitWsGo cs (c :: acc)

/-- JS `split(/\s+/)`, consuming the rest of a whitespace run; a run at
the very end contributes a trailing empty piece. -/
def splitWsDrop : List Char → List String
  | [] => [""]
  | c :: cs =>
    if jsIsWhitespaceChar c then splitWsDrop cs else splitWsGo cs [c]

end

/-- JS `s.split(/\s+/)` (note `''.split(/\s+/) === ['']`). -/
def jsSplitWs (s : String) : List String := splitWsGo s.data []

/-- `p.charAt(0).toUpperCase() + p.slice(1)`. -/
def jsCapitalize (w : String) : String :=
  match w.data with
  | [] => ""
  | c :: cs => String.mk (c.toUpper :: cs)

/-- The `parts` array computed inside `toPascalCase` for a string input. -/
def pascalParts (s : String) : List String :=
  jsSplitWs (jsTrim (collapseNonAlnum s))

/-- `parts.map(capitalize).join('')`. -/
def pascalJoin (parts : List String) : String :=
  String.join (parts.map jsCapitalize)

/-- `toPascalCase`; `none` models a `null`/`undefined` name, and the
falsy-string test `!name` is an emptiness test on string input. -/
def toPascalCase : Option String → String
  | none => "Ontology"
  | some name =>
    if name = "" then "Ontology"
    else
      let parts := pascalParts name
      if parts.length = 0 then "Ontology"
      else pascalJoin parts

/-! ## Concrete data used by the examples and witnesses -/

/-- The `Zebra` row of the repository's `filterAndSortRows` test. -/
def zebraRow : Row := [("iri", "http://example.org/a"), ("label", "Zebra")]

/-- The `Apple` row of the repository's `filterAndSortRows` test. -/
def appleRow : Row := [("iri", "http://example.org/b"), ("label", "Apple")]

/-- The `Banana` row of the repository's `filterAndSortRows` test. -/
def bananaRow : Row := [("iri", "http://example.org/c"), ("label", "Banana")]

/-- The three-row model of the repository's `filterAndSortRows` test. -/
def exampleModel : TableModel :=
  { headers := ["iri", "label"], keys := ["iri", "label"],
    rows := [zebraRow, appleRow, bananaRow] }

example : jsFilterRows exampleModel "an" = [bananaRow] := by decide

example : filterAndSortRows exampleModel "" (some 1) "asc" =
    [appleRow, bananaRow, zebraRow] := by decide

example : toPascalCase (some "example-ontology_name.foo") =
    "ExampleOntologyNameFoo" := by decide

example : toPascalCase (some "---") = "" := by decide

example : detectRdfFormatFromFilename "weird.ext" = "text/turtle" := by decide

/-! ## General lemmas -/

theorem find?_filter_eq (l : List α) (p q : α → Bool) :
    (l.filter p).find? q = l.find? (fun x => p x && q x) := by
  induction l with
  | nil => rfl
  | cons a l ih =>
    simp only [List.filter_cons, List.find?_cons]
    by_cases hp : p a <;> by_cases hq : q a <;>
      simp [hp, hq, List.find?_cons, ih]

theorem isNamedNodeValued_eq_true (t : Term) (iri : String) :
    t.isNamedNodeValued iri = true ↔ t = Term.namedNode iri := by
  cases t <;> simp [Term.isNamedNodeValued]

theorem string_mk_eq_empty_iff (d : List Char) : String.mk d = "" ↔ d = [] := by
  constructor
  · intro h
    have := congrArg String.data h
    simpa using this
  · intro h; subst h; rfl

theorem jsToLower_eq_empty_iff (s : String) : jsToLower s = "" ↔ s = "" := by
  cases s with
  | mk data =>
    rw [jsToLower, string_mk_eq_empty_iff]
    simp [string_mk_eq_empty_iff]

theorem insertSorted_perm (le : α → α → Bool) (a : α) (l : List α) :
    (insertSorted le a l).Perm (a :: l) := by
  induction l with
  | nil => exact List.Perm.refl _
  | cons b bs ih =>
    simp only [insertSorted]
    by_cases h : le a b = true
    · simp [h]
    · simp only [h, Bool.false_eq_true, if_false]
      exact (ih.cons b).trans (List.Perm.swap a b bs)

theorem insertionSort_perm (le : α → α → Bool) (l : List α) :
    (insertionSort le l).Perm l := by
  induction l with
  | nil => exact List.Perm.refl _
  | cons a as ih =>
    exact (insertSorted_perm le a (insertionSort le as)).trans (ih.cons a)

/-! ## C2: pickBestLiteral -/

theorem litIsEn_imp_hasLang (l : Term) (h : litIsEn l = true) :
    litHasLang l = true := by
  simp only [litIsEn, decide_eq_true_eq] at h
  simp only [litHasLang, decide_eq_true_eq]
  intro heq
  rw [heq] at h
  exact absurd h (by decide)

theorem hasLang_and_isEn (x : Term) : (litHasLang x && litIsEn x) = litIsEn x := by
  cases h : litIsEn x
  · simp [h]
  · simp [h, litIsEn_imp_hasLang x h]

theorem filter_find?_en (literals : List Term) :
    (literals.filter litHasLang).find? litIsEn = literals.find? litIsEn := by
  rw [find?_filter_eq]
  rw [show (fun x => litHasLang x && litIsEn x) = litIsEn from funext hasLang_and_isEn]

/-- C2: `pickBestLiteral` on the empty list is `none`; otherwise it is the
first literal whose language tag lower-cases to `"en"`, else the first
literal with no language tag, else the first literal of the list. -/
theorem c2_pick_best_literal (literals : List Term) :
    (literals = [] → pickBestLiteral literals = none) ∧
    (∀ l, literals.find? litIsEn = some l → pickBestLiteral literals = some l) ∧
    (literals.find? litIsEn = none →
      ∀ l, literals.find? (fun x => !litHasLang x) = some l →
        pickBestLiteral literals = some l) ∧
    (literals ≠ [] → literals.find? litIsEn = none →
      literals.find? (fun x => !litHasLang x) = none →
      pickBestLiteral literals = literals.head?) := by
  refine ⟨?_, ?_, ?_, ?_⟩
  · intro h; subst h; rfl
  · intro l hl
    have hne : literals ≠ [] := by
      intro h; subst h; simp at hl
    unfold pickBestLiteral
    rw [if_neg (by simpa using hne), filter_find?_en, hl]
  · intro hen l hl
    have hne : literals ≠ [] := by
      intro h; subst h; simp at hl
    unfold pickBestLiteral
    rw [if_neg (by simpa using hne), filter_find?_en, hen, hl]
  · intro hne hen hno
    unfold pickBestLiteral
    rw [if_neg (by simpa using hne), filter_find?_en, hen, hno]

/-- C2 witness: a concrete list with an upper-cased `"EN"` tag in second
position picks that literal. -/
theorem c2_pick_best_literal_witness :
    pickBestLiteral [Term.literal "Bonjour" "fr", Term.literal "Hello" "EN"] =
      some (Term.literal "Hello" "EN") :=
  (c2_pick_best_literal _).2.1 _ (by decide)

/-! ## C8: detectRdfFormatFromFilename -/

theorem jsEndsWith_getLast (s suffixStr : String) (c : Char)
    (hsuf : suffixStr.data.getLast? = some c) (h : jsEndsWith s suffixStr = true) :
    s.data.getLast? = some c := by
  simp only [jsEndsWith, decide_eq_true_eq] at h
  obtain ⟨t, ht⟩ := h
  rw [← ht, List.getLast?_append_of_ne_nil, hsuf]
  intro hn
  rw [hn] at hsuf
  simp at hsuf

theorem jsEndsWith_false_of_getLast (s suffixStr : String) (c c' : Char)
    (hlast : s.data.getLast? = some c) (hsuf : suffixStr.data.getLast? = some c')
    (hcc : c ≠ c') : jsEndsWith s suffixStr = false := by
  cases h : jsEndsWith s suffixStr
  · rfl
  · have := jsEndsWith_getLast s suffixStr c' hsuf h
    rw [hlast] at this
    exact absurd (Option.some.inj this) hcc

/-- C8: the media type returned by `detectRdfFormatFromFilename` per
lower-cased filename extension: `.ttl`/`.n3` give Turtle, `.nt`
N-Triples, `.nq` N-Quads, `.trig` TriG, and everything else falls back to
Turtle, with no error. -/
theorem c8_detect_rdf_format (filename : String) :
    (jsEndsWith (jsToLower filename) ".ttl" = true ∨
        jsEndsWith (jsToLower filename) ".n3" = true →
      detectRdfFormatFromFilename filename = "text/turtle") ∧
    (jsEndsWith (jsToLower filename) ".nt" = true →
      detectRdfFormatFromFilename filename = "application/n-triples") ∧
    (jsEndsWith (jsToLower filename) ".nq" = true →
      detectRdfFormatFromFilename filename = "application/n-quads") ∧
    (jsEndsWith (jsToLower filename) ".trig" = true →
      detectRdfFormatFromFilename filename = "application/trig") ∧
    (jsEndsWith (jsToLower filename) ".ttl" = false →
      jsEndsWith (jsToLower filename) ".n3" = false →
      jsEndsWith (jsToLower filename) ".nt" = false →
      jsEndsWith (jsToLower filename) ".nq" = false →
      jsEndsWith (jsToLower filename) ".trig" = false →
      detectRdfFormatFromFilename filename = "text/turtle") := by
  refine ⟨?_, ?_, ?_, ?_, ?_⟩
  · intro h
    unfold detectRdfFormatFromFilename
    rcases h with h | h <;> simp [h]
  · intro h
    have hlast := jsEndsWith_getLast _ ".nt" 't' (by decide) h
    have h1 := jsEndsWith_false_of_getLast _ ".ttl" 't' 'l' hlast (by decide) (by decide)
    have h2 := jsEndsWith_false_of_getLast _ ".n3" 't' '3' hlast (by decide) (by decide)
    unfold detectRdfFormatFromFilename
    simp [h, h1, h2]
  · intro h
    have hlast := jsEndsWith_getLast _ ".nq" 'q' (by decide) h
    have h1 := jsEndsWith_false_of_getLast _ ".ttl" 'q' 'l' hlast (by decide) (by decide)
    have h2 := jsEndsWith_false_of_getLast _ ".n3" 'q' '3' hlast (by decide) (by decide)
    have h3 := jsEndsWith_false_of_getLast _ ".nt" 'q' 't' hlast (by decide) (by decide)
    unfold detectRdfFormatFromFilename
    simp [h, h1, h2, h3]
  · intro h
    have hlast := jsEndsWith_getLast _ ".trig" 'g' (by decide) h
    have h1 := jsEndsWith_false_of_getLast _ ".ttl" 'g' 'l' hlast (by decide) (by decide)
    have h2 := jsEndsWith_false_of_getLast _ ".n3" 'g' '3' hlast (by decide) (by decide)
    have h3 := jsEndsWith_false_of_getLast _ ".nt" 'g' 't' hlast (by decide) (by decide)
    have h4 := jsEndsWith_false_of_getLast _ ".nq" 'g' 'q' hlast (by decide) (by decide)
    unfold detectRdfFormatFromFilename
    simp [h, h1, h2, h3, h4]
  · intro h1 h2 h3 h4 h5
    unfold detectRdfFormatFromFilename
    simp [h1, h2, h3, h4, h5]

/-- C8 witness: concrete filenames exercising the `.nt` case and the
unknown-extension fallback. -/
theorem c8_detect_rdf_format_witness :
    detectRdfFormatFromFilename "data.nt" = "application/n-triples" :=
  (c8_detect_rdf_format "data.nt").2.1 (by decide)

/-! ## C6: extractOntologyMetadata without an ontology subject -/

/-- C6: when no quad types a subject as `owl:Ontology`, every metadata
field is `none` (the embedded function is total, so no exception can be
raised). -/
theorem c6_metadata_all_none (store : Store)
    (h : ∀ q ∈ store, ¬(q.predicate = Term.namedNode (nsRdf ++ "type") ∧
        q.object = Term.namedNode (nsOwl ++ "Ontology"))) :
    extractOntologyMetadata store =
      { ontologyIri := none, ontologyName := none, versionIri := none,
        versionInfo := none, description := none, license := none,
        rightsHolder := none } := by
  have hfind : getOntologySubjectIri store = none := by
    have hnone : store.find? (fun q =>
        q.predicate.isNamedNodeValued (nsRdf ++ "type") &&
        q.object.isNamedNodeValued (nsOwl ++ "Ontology")) = none := by
      rw [List.find?_eq_none]
      intro q hq
      have hnq := h q hq
      simp only [Bool.and_eq_true, isNamedNodeValued_eq_true]
      intro hc
      exact hnq hc
    unfold getOntologySubjectIri
    rw [hnone]
    rfl
  unfold extractOntologyMetadata
  rw [hfind]

/-- C6 witness: a store with one quad, none of which types an
`owl:Ontology` subject. -/
theorem c6_metadata_all_none_witness :
    extractOntologyMetadata
      [⟨Term.namedNode "http://example.org/x",
        Term.namedNode (nsRdfs ++ "label"), Term.literal "X" "en"⟩] =
      { ontologyIri := none, ontologyName := none, versionIri := none,
        versionInfo := none, description := none, license := none,
        rightsHolder := none } :=
  c6_metadata_all_none _ (by decide)

/-! ## C9: getPreferredLiteralForPredicates stops on an empty literal -/

/-- The subject, predicates and store of the C9 scenario: the
higher-priority predicate `p1` carries only an empty-string literal, the
lower-priority `p2` a non-empty one. -/
def c9Subj : String := "http://example.org/s"

def c9P1 : String := "http://example.org/p1"

def c9P2 : String := "http://example.org/p2"

def c9Store : Store :=
  [⟨Term.namedNode c9Subj, Term.namedNode c9P1, Term.literal "" ""⟩,
   ⟨Term.namedNode c9Subj, Term.namedNode c9P2, Term.literal "label text" ""⟩]

/-- C9: a candidate predicate with at least one literal object ends the
search of `getPreferredLiteralForPredicates` regardless of the remaining
predicates, even when the selected literal's string value is empty; on the
concrete store the empty string is returned and `p2` is never consulted. -/
theorem c9_empty_literal_stops_search :
    (∀ (store : Store) (subj p : String) (rest : List String) (best : Term),
      pickBestLiteral (literalObjectsUnder (getQuadsForSubject store subj) p) =
          some best →
      getPreferredLiteralForPredicates store subj (p :: rest) =
        some best.value) ∧
    (∀ rest : List String,
      getPreferredLiteralForPredicates c9Store c9Subj (c9P1 :: rest) =
        some "") ∧
    getPreferredLiteralForPredicates c9Store c9Subj [c9P1, c9P2] = some "" := by
  have hgen : ∀ (store : Store) (subj p : String) (rest : List String) (best : Term),
      pickBestLiteral (literalObjectsUnder (getQuadsForSubject store subj) p) =
          some best →
      getPreferredLiteralForPredicates store subj (p :: rest) =
        some best.value := by
    intro store subj p rest best hbest
    unfold getPreferredLiteralForPredicates preferredLiteralLoop
    rw [hbest]
  have hbest1 : pickBestLiteral
      (literalObjectsUnder (getQuadsForSubject c9Store c9Subj) c9P1) =
      some (Term.literal "" "") := by decide
  exact ⟨hgen, fun rest => hgen c9Store c9Subj c9P1 rest _ hbest1,
    hgen c9Store c9Subj c9P1 [c9P2] _ hbest1⟩

/-- C9 witness: the general part applied at the concrete store with an
empty remaining predicate list. -/
theorem c9_empty_literal_stops_search_witness :
    getPreferredLiteralForPredicates c9Store c9Subj [c9P1] = some "" :=
  (c9_empty_literal_stops_search).1 c9Store c9Subj c9P1 [] (Term.literal "" "")
    (by decide)

/-! ## C10: toPascalCase -/

theorem collapseSkip_eq_nil (l : List Char) (h : ∀ c ∈ l, isJsAlnum c = false) :
    collapseSkip l = [] := by
  induction l with
  | nil => rfl
  | cons c cs ih =>
    rw [collapseSkip, h c (List.mem_cons_self c cs)]
    simp only [Bool.false_eq_true, if_false]
    exact ih (fun x hx => h x (List.mem_cons_of_mem c hx))

theorem collapseGo_all_sep (l : List Char) (hne : l ≠ [])
    (h : ∀ c ∈ l, isJsAlnum c = false) : collapseGo l = [' '] := by
  cases l with
  | nil => exact absurd rfl hne
  | cons c cs =>
    rw [collapseGo, h c (List.mem_cons_self c cs)]
    simp only [Bool.false_eq_true, if_false]
    rw [collapseSkip_eq_nil cs (fun x hx => h x (List.mem_cons_of_mem c hx))]

theorem splitWsGo_ne_nil (l : List Char) : ∀ acc, splitWsGo l acc ≠ [] := by
  induction l with
  | nil => intro acc; simp [splitWsGo]
  | cons c cs ih =>
    intro acc
    rw [splitWsGo]
    by_cases h : jsIsWhitespaceChar c = true
    · simp [h]
    · simp only [h, Bool.false_eq_true, if_false]
      exact ih (c :: acc)

/-- C10: `toPascalCase` maps every non-empty all-separator string to `""`
(not to the `"Ontology"` fallback); the fallback arises exactly from
`null`/`undefined`/`""` input, because the inner `parts.length === 0`
guard is unreachable (`parts` is never empty), so every non-empty string
takes the capitalize-and-join path. -/
theorem c10_to_pascal_case :
    (∀ s : String, s ≠ "" → (∀ c ∈ s.data, isJsAlnum c = false) →
      toPascalCase (some s) = "") ∧
    toPascalCase none = "Ontology" ∧
    toPascalCase (some "") = "Ontology" ∧
    (∀ s : String, pascalParts s ≠ []) ∧
    (∀ s : String, s ≠ "" →
      toPascalCase (some s) = pascalJoin (pascalParts s)) := by
  have hne : ∀ s : String, pascalParts s ≠ [] := by
    intro s
    unfold pascalParts jsSplitWs
    exact splitWsGo_ne_nil _ []
  have hpath : ∀ s : String, s ≠ "" →
      toPascalCase (some s) = pascalJoin (pascalParts s) := by
    intro s hs
    simp only [toPascalCase]
    rw [if_neg hs, if_neg (by simpa [List.length_eq_zero] using hne s)]
  refine ⟨?_, rfl, rfl, hne, hpath⟩
  intro s hs hall
  have hdata : s.data ≠ [] := by
    intro h
    apply hs
    cases s with
    | mk d =>
      rw [string_mk_eq_empty_iff]
      exact h
  have hcol : collapseNonAlnum s = String.mk [' '] := by
    unfold collapseNonAlnum
    rw [collapseGo_all_sep s.data hdata hall]
  have hparts : pascalParts s = [""] := by
    unfold pascalParts jsSplitWs
    rw [hcol]
    decide
  rw [hpath s hs, hparts]
  decide

/-- C10 witness: the all-separator string `"---"` yields `""`, and the
theorem's other components at concrete inputs. -/
theorem c10_to_pascal_case_witness :
    toPascalCase (some "---") = "" ∧ toPascalCase (some "x") = pascalJoin (pascalParts "x") :=
  ⟨(c10_to_pascal_case).1 "---" (by decide) (by decide),
   (c10_to_pascal_case).2.2.2.2 "x" (by decide)⟩

/-! ## Lemmas about the column machinery of buildElementTableModel -/

theorem filterByFlags_cons (a : α) (l : List α) (b : Bool) (flags : List Bool) :
    filterByFlags (a :: l) (b :: flags) =
      (if b then [a] else []) ++ filterByFlags l flags := by
  cases b <;> simp [filterByFlags]

theorem filterByFlags_length_congr (flags : List Bool) :
    ∀ (l₁ : List α) (l₂ : List β), l₁.length = l₂.length →
      (filterByFlags l₁ flags).length = (filterByFlags l₂ flags).length := by
  induction flags with
  | nil => intro l₁ l₂ _; simp [filterByFlags]
  | cons b fs ih =>
    intro l₁ l₂ h
    cases l₁ with
    | nil =>
      cases l₂ with
      | nil => rfl
      | cons a₂ t₂ => simp at h
    | cons a₁ t₁ =>
      cases l₂ with
      | nil => simp at h
      | cons a₂ t₂ =>
        rw [filterByFlags_cons, filterByFlags_cons]
        simp only [List.length_append]
        have hlen := ih t₁ t₂ (by simpa using h)
        cases b <;> simp [hlen]

theorem filterByFlags_map_self (l : List α) (f : α → Bool) :
    filterByFlags l (l.map f) = l.filter f := by
  induction l with
  | nil => rfl
  | cons a t ih =>
    rw [List.map_cons, filterByFlags_cons, List.filter_cons]
    cases f a <;> simp [ih]

theorem keepFlags_head_true (rows : List Row) :
    keepFlags rows = true :: (keepFlags rows).tail := by
  unfold keepFlags allKeys
  simp

theorem lookup_map_of_mem (keys : List String) (g : String → String) (k : String)
    (h : k ∈ keys) : (keys.map (fun k' => (k', g k'))).lookup k = some (g k) := by
  induction keys with
  | nil => simp at h
  | cons a t ih =>
    rw [List.map_cons]
    by_cases hk : k = a
    · subst hk; simp [List.lookup]
    · rw [List.mem_cons] at h
      have hkt : k ∈ t := h.resolve_left hk
      have hbeq : (k == a) = false := by simpa using hk
      simp [List.lookup, hbeq, ih hkt]

theorem lookup_map_of_not_mem (keys : List String) (g : String → String) (k : String)
    (h : k ∉ keys) : (keys.map (fun k' => (k', g k'))).lookup k = none := by
  induction keys with
  | nil => rfl
  | cons a t ih =>
    rw [List.map_cons]
    have hka : k ≠ a := fun he => h (he ▸ List.mem_cons_self a t)
    have hkt : k ∉ t := fun hm => h (List.mem_cons_of_mem a hm)
    have hbeq : (k == a) = false := by simpa using hka
    simp [List.lookup, hbeq, ih hkt]

theorem rowGet_map_keys_of_mem (keys : List String) (g : String → String)
    (k : String) (h : k ∈ keys) :
    rowGet (keys.map (fun k' => (k', g k'))) k = g k := by
  unfold rowGet
  rw [lookup_map_of_mem keys g k h]
  rfl

theorem rowGet_map_keys_of_not_mem (keys : List String) (g : String → String)
    (k : String) (h : k ∉ keys) :
    rowGet (keys.map (fun k' => (k', g k'))) k = "" := by
  unfold rowGet
  rw [lookup_map_of_not_mem keys g k h]
  rfl

theorem buildModel_keys_eq (store : Store) :
    (buildElementTableModel store).keys =
      allKeys.filter (fun key => if key = "iri" then true
        else ((elementSubjects store).map (buildRow store)).any
          (fun r => decide (jsTrim (rowGet r key) ≠ ""))) := by
  simp only [buildElementTableModel]
  exact filterByFlags_map_self _ _

theorem buildModel_rows_eq (store : Store) :
    (buildElementTableModel store).rows =
      ((elementSubjects store).map (buildRow store)).map
        (fun r => (buildElementTableModel store).keys.map
          (fun k => (k, rowGet r k))) := by
  simp only [buildElementTableModel]

/-! ## C1: table model invariants -/

/-- C1: for every store, the model has as many headers as keys, both
sequences start with `"iri"`, and every row consists of exactly the fields
named in `keys`, in order. -/
theorem c1_table_model_invariants (store : Store) :
    (buildElementTableModel store).headers.length =
      (buildElementTableModel store).keys.length ∧
    (buildElementTableModel store).headers.head? = some "iri" ∧
    (buildElementTableModel store).keys.head? = some "iri" ∧
    ∀ r ∈ (buildElementTableModel store).rows,
      r.map Prod.fst = (buildElementTableModel store).keys := by
  refine ⟨?_, ?_, ?_, ?_⟩
  · simp only [buildElementTableModel]
    exact filterByFlags_length_congr _ _ _ (by decide)
  · simp only [buildElementTableModel]
    rw [keepFlags_head_true ((elementSubjects store).map (buildRow store)),
      show allHeaders = "iri" :: allHeaders.tail from rfl, filterByFlags_cons]
    simp
  · simp only [buildElementTableModel]
    rw [keepFlags_head_true ((elementSubjects store).map (buildRow store)),
      show allKeys = "iri" :: allKeys.tail from rfl, filterByFlags_cons]
    simp
  · intro r hr
    rw [buildModel_rows_eq store] at hr
    obtain ⟨r₀, _, rfl⟩ := List.mem_map.mp hr
    simp [List.map_map, Function.comp_def]

/-- C1 witness: the row-field component at a concrete one-class store. -/
theorem c1_table_model_invariants_witness :
    ([("iri", "http://example.org/A"), ("type", nsOwl ++ "Class")] : Row).map
        Prod.fst =
      (buildElementTableModel
        [⟨Term.namedNode "http://example.org/A",
          Term.namedNode (nsRdf ++ "type"), Term.namedNode (nsOwl ++ "Class")⟩]).keys :=
  (c1_table_model_invariants _).2.2.2 _ (by decide)

/-! ## C3: column pruning -/

/-- C3: a column other than `iri` survives into `keys` exactly when some
row has a non-empty, non-whitespace value for it; with no qualifying
element subjects the model has zero rows and degenerates to the single
`iri` column. -/
theorem c3_column_pruning (store : Store) :
    (∀ k, k ∈ allKeys → k ≠ "iri" →
      (k ∈ (buildElementTableModel store).keys ↔
        ∃ r ∈ (buildElementTableModel store).rows, jsTrim (rowGet r k) ≠ "")) ∧
    (elementSubjects store = [] →
      (buildElementTableModel store).rows = [] ∧
      (buildElementTableModel store).headers = ["iri"] ∧
      (buildElementTableModel store).keys = ["iri"]) := by
  constructor
  · intro k hkAll hkIri
    constructor
    · intro hk0
      have hk := hk0
      rw [buildModel_keys_eq store, List.mem_filter, if_neg hkIri,
        List.any_eq_true] at hk
      obtain ⟨-, r₀, hr₀, hval⟩ := hk
      refine ⟨(buildElementTableModel store).keys.map (fun k' => (k', rowGet r₀ k')),
        ?_, ?_⟩
      · rw [buildModel_rows_eq store]
        exact List.mem_map_of_mem _ hr₀
      · rw [rowGet_map_keys_of_mem _ _ k hk0]
        exact of_decide_eq_true hval
    · rintro ⟨r, hr, hval⟩
      rw [buildModel_rows_eq store] at hr
      obtain ⟨r₀, hr₀, rfl⟩ := List.mem_map.mp hr
      by_contra hk
      rw [rowGet_map_keys_of_not_mem _ _ k hk] at hval
      exact hval (by decide)
  · intro h
    have hrows0 : (elementSubjects store).map (buildRow store) = [] := by
      rw [h]; rfl
    refine ⟨?_, ?_, ?_⟩
    · rw [buildModel_rows_eq store, hrows0]; rfl
    · simp only [buildElementTableModel]
      rw [hrows0]
      decide
    · simp only [buildElementTableModel]
      rw [hrows0]
      decide

/-- C3 witness: at the empty store the model is the bare `iri` column, and
the pruning equivalence for the `label` column is vacuous. -/
theorem c3_column_pruning_witness :
    ((buildElementTableModel ([] : Store)).keys = ["iri"]) ∧
    ("label" ∈ (buildElementTableModel ([] : Store)).keys ↔
      ∃ r ∈ (buildElementTableModel ([] : Store)).rows,
        jsTrim (rowGet r "label") ≠ "") :=
  ⟨((c3_column_pruning []).2 (by decide)).2.2,
   (c3_column_pruning []).1 "label" (by decide) (by decide)⟩

/-! ## Equation lemmas for the match-based filter/sort functions -/

theorem filterAndSortRows_some (m : TableModel) (query dir : String) (si : Int) :
    filterAndSortRows m query (some si) dir =
      if si < 0 ∨ (m.headers.length : Int) ≤ si then jsFilterRows m query
      else
        match m.keys.get? si.toNat with
        | none => jsFilterRows m query
        | some key =>
          if key = "" then jsFilterRows m query
          else insertionSort (fun a b => jsSortCompare key dir a b ≤ 0)
            (jsFilterRows m query) := rfl

theorem filterAndSortRowsAlloc_some (heap : RowsHeap) (m : ModelRef)
    (query dir : String) (si : Int) :
    filterAndSortRowsAlloc heap m query (some si) dir =
      if si < 0 ∨ (m.headers.length : Int) ≤ si then allocStep1 heap m query
      else
        match m.keys.get? si.toNat with
        | none => allocStep1 heap m query
        | some key =>
          if key = "" then allocStep1 heap m query
          else
            ((allocStep1 heap m query).1 ++ [insertionSort
              (fun a b => jsSortCompare key dir a b ≤ 0)
              (((allocStep1 heap m query).1.get?
                (allocStep1 heap m query).2).getD [])],
             (allocStep1 heap m query).1.length) := rfl

/-! ## C4: filterAndSortRows filtering semantics -/

/-- C4: `filterAndSortRows` returns exactly (up to the ordering produced
by the sort stage) the rows with some field value containing the query
case-insensitively — the empty query matching every row — and with the
empty query it returns every row of the model. -/
theorem c4_filter_semantics (m : TableModel) (query : String)
    (sortIndex : Option Int) (dir : String) :
    (filterAndSortRows m query sortIndex dir).Perm
      (m.rows.filter (fun r =>
        decide (query = "") || rowMatchesQuery (jsToLower query) r)) ∧
    (query = "" → (filterAndSortRows m query sortIndex dir).Perm m.rows) := by
  have hperm : (filterAndSortRows m query sortIndex dir).Perm
      (jsFilterRows m query) := by
    cases sortIndex with
    | none => exact List.Perm.refl _
    | some si =>
      rw [filterAndSortRows_some]
      split
      · exact List.Perm.refl _
      · split
        · exact List.Perm.refl _
        · split
          · exact List.Perm.refl _
          · exact insertionSort_perm _ _
  have heq : jsFilterRows m query =
      m.rows.filter (fun r =>
        decide (query = "") || rowMatchesQuery (jsToLower query) r) := by
    by_cases hq : query = ""
    · subst hq
      have h0 : jsToLower "" = "" := by decide
      unfold jsFilterRows
      rw [h0]
      simp
    · have hlq : jsToLower query ≠ "" :=
        fun h => hq ((jsToLower_eq_empty_iff query).mp h)
      unfold jsFilterRows
      rw [if_pos hlq]
      simp [hq]
  refine ⟨heq ▸ hperm, fun hq => ?_⟩
  have hall : jsFilterRows m query = m.rows := by
    subst hq
    have h0 : jsToLower "" = "" := by decide
    unfold jsFilterRows
    rw [h0]
    simp
  exact hall ▸ hperm

/-- C4 witness: with the empty query on the example model, the returned
sequence is a permutation of all rows. -/
theorem c4_filter_semantics_witness :
    (filterAndSortRows exampleModel "" (some 1) "asc").Perm exampleModel.rows :=
  (c4_filter_semantics exampleModel "" (some 1) "asc").2 rfl

/-! ## C5: filterAndSortRows sorting semantics -/

/-- C5: sorting is skipped when the sort index is `none` or out of range
of the headers; with a valid index resolving to a key, the rows are
ordered by the locale-aware comparison of that key's values per the
direction; on the Zebra/Apple/Banana model, column 1 ascending yields
Apple, Banana, Zebra and descending the reverse. -/
theorem c5_sort_semantics :
    (∀ (m : TableModel) (query dir : String),
      filterAndSortRows m query none dir = jsFilterRows m query) ∧
    (∀ (m : TableModel) (query dir : String) (si : Int),
      si < 0 ∨ (m.headers.length : Int) ≤ si →
      filterAndSortRows m query (some si) dir = jsFilterRows m query) ∧
    (∀ (m : TableModel) (query dir : String) (si : Int) (key : String),
      ¬(si < 0 ∨ (m.headers.length : Int) ≤ si) →
      m.keys.get? si.toNat = some key → key ≠ "" →
      filterAndSortRows m query (some si) dir =
        insertionSort (fun a b => jsSortCompare key dir a b ≤ 0)
          (jsFilterRows m query)) ∧
    filterAndSortRows exampleModel "" (some 1) "asc" =
      [appleRow, bananaRow, zebraRow] ∧
    filterAndSortRows exampleModel "" (some 1) "desc" =
      [zebraRow, bananaRow, appleRow] := by
  refine ⟨?_, ?_, ?_, by decide, by decide⟩
  · intro m query dir
    rfl
  · intro m query dir si h
    rw [filterAndSortRows_some, if_pos h]
  · intro m query dir si key h1 h2 h3
    rw [filterAndSortRows_some, if_neg h1, h2]
    dsimp only
    rw [if_neg h3]

/-- C5 witness: the out-of-range component at a concrete index. -/
theorem c5_sort_semantics_witness :
    filterAndSortRows exampleModel "an" (some 5) "asc" =
      jsFilterRows exampleModel "an" :=
  (c5_sort_semantics).2.1 exampleModel "an" "asc" 5 (Or.inr (by decide))

/-! ## C7: frame behaviour of filterAndSortRows -/

theorem get?_append_left (l l' : List α) (i : Nat) (h : i < l.length) :
    (l ++ l').get? i = l.get? i := by
  induction l generalizing i with
  | nil => simp at h
  | cons a t ih =>
    cases i with
    | zero => rfl
    | succ n => exact ih n (by simpa using h)

theorem allocStep1_get? (heap : RowsHeap) (m : ModelRef) (query : String)
    (i : Nat) (hi : i < heap.length) :
    (allocStep1 heap m query).1.get? i = heap.get? i := by
  unfold allocStep1
  split
  · exact get?_append_left _ _ i hi
  · rfl

theorem allocStep1_heap_length (heap : RowsHeap) (m : ModelRef) (query : String) :
    heap.length ≤ (allocStep1 heap m query).1.length := by
  unfold allocStep1
  split
  · simp
  · exact le_refl _

theorem allocStep1_ref_of_ne (heap : RowsHeap) (m : ModelRef) (query : String)
    (hq : query ≠ "") : (allocStep1 heap m query).2 = heap.length := by
  have hlq : jsToLower query ≠ "" :=
    fun h => hq ((jsToLower_eq_empty_iff query).mp h)
  unfold allocStep1
  rw [if_pos hlq]

theorem allocStep1_ref_of_empty (heap : RowsHeap) (m : ModelRef) (query : String)
    (hq : query = "") : (allocStep1 heap m query).2 = m.rowsRef := by
  subst hq
  have h0 : jsToLower "" = "" := by decide
  unfold allocStep1
  rw [h0]
  simp

/-- Whether the sort stage of `filterAndSortRows` actually sorts: the sort
index is a number that is in range of the headers and resolves to a
non-empty key — exactly the complement of the source's three early
returns. -/
def sortStageRuns (m : ModelRef) (sortIndex : Option Int) : Bool :=
  match sortIndex with
  | none => false
  | some si =>
    if si < 0 ∨ (m.headers.length : Int) ≤ si then false
    else
      match m.keys.get? si.toNat with
      | none => false
      | some key => if key = "" then false else true

theorem sortStageRuns_some (m : ModelRef) (si : Int) :
    sortStageRuns m (some si) =
      if si < 0 ∨ (m.headers.length : Int) ≤ si then false
      else
        match m.keys.get? si.toNat with
        | none => false
        | some key => if key = "" then false else true := rfl

/-- C7 counterexample: for the concrete model and heap, with an empty
query and no sort column, `filterAndSortRows` returns the model's own
rows array (the reference `model.rowsRef` itself), not a new sequence,
and the heap is unchanged — so the function does not always return a new
sequence. -/
theorem c7_returns_own_rows_counterexample :
    (filterAndSortRowsAlloc [[zebraRow, appleRow, bananaRow]]
        { headers := ["iri", "label"], keys := ["iri", "label"], rowsRef := 0 }
        "" none "asc").2 = 0 ∧
    (filterAndSortRowsAlloc [[zebraRow, appleRow, bananaRow]]
        { headers := ["iri", "label"], keys := ["iri", "label"], rowsRef := 0 }
        "" none "asc").1 = [[zebraRow, appleRow, bananaRow]] := by
  constructor
  · rfl
  · rfl

/-- C7 (amended): `filterAndSortRows` never mutates the input model — every
array existing before the call is unchanged in the final heap; it returns
a newly allocated sequence whenever the query is non-empty or the sort
stage runs; and when the query is empty and sorting is skipped it returns
the model's existing rows array itself (reference `m.rowsRef`) rather
than a new sequence (see the counterexample for the original claim). -/
theorem c7_no_mutation (heap : RowsHeap) (m : ModelRef) (query : String)
    (sortIndex : Option Int) (dir : String) :
    (∀ i, i < heap.length →
      (filterAndSortRowsAlloc heap m query sortIndex dir).1.get? i =
        heap.get? i) ∧
    (query ≠ "" ∨ sortStageRuns m sortIndex = true →
      heap.length ≤ (filterAndSortRowsAlloc heap m query sortIndex dir).2) ∧
    (query = "" ∧ sortStageRuns m sortIndex = false →
      (filterAndSortRowsAlloc heap m query sortIndex dir).2 = m.rowsRef) := by
  cases sortIndex with
  | none =>
    refine ⟨fun i hi => allocStep1_get? heap m query i hi, fun hq => ?_,
      fun hq => ?_⟩
    · rcases hq with hq | hrun
      · rw [show filterAndSortRowsAlloc heap m query none dir =
          allocStep1 heap m query from rfl, allocStep1_ref_of_ne heap m query hq]
      · simp [sortStageRuns] at hrun
    · exact allocStep1_ref_of_empty heap m query hq.1
  | some si =>
    rw [filterAndSortRowsAlloc_some, sortStageRuns_some]
    by_cases h1 : si < 0 ∨ (m.headers.length : Int) ≤ si
    · rw [if_pos h1, if_pos h1]
      refine ⟨fun i hi => allocStep1_get? heap m query i hi, fun hq => ?_,
        fun hq => ?_⟩
      · rcases hq with hq | hrun
        · rw [allocStep1_ref_of_ne heap m query hq]
        · exact absurd hrun (by decide)
      · exact allocStep1_ref_of_empty heap m query hq.1
    · rw [if_neg h1, if_neg h1]
      cases h2 : m.keys.get? si.toNat with
      | none =>
        dsimp only
        refine ⟨fun i hi => allocStep1_get? heap m query i hi, fun hq => ?_,
          fun hq => ?_⟩
        · rcases hq with hq | hrun
          · rw [allocStep1_ref_of_ne heap m query hq]
          · exact absurd hrun (by decide)
        · exact allocStep1_ref_of_empty heap m query hq.1
      | some key =>
        dsimp only
        by_cases h3 : key = ""
        · rw [if_pos h3, if_pos h3]
          refine ⟨fun i hi => allocStep1_get? heap m query i hi, fun hq => ?_,
            fun hq => ?_⟩
          · rcases hq with hq | hrun
            · rw [allocStep1_ref_of_ne heap m query hq]
            · exact absurd hrun (by decide)
          · exact allocStep1_ref_of_empty heap m query hq.1
        · rw [if_neg h3, if_neg h3]
          refine ⟨fun i hi => ?_, fun _ => ?_, fun hq => ?_⟩
          · show ((allocStep1 heap m query).1 ++ _).get? i = heap.get? i
            rw [get?_append_left _ _ i
              (lt_of_lt_of_le hi (allocStep1_heap_length heap m query))]
            exact allocStep1_get? heap m query i hi
          · exact allocStep1_heap_length heap m query
          · exact absurd hq.2 (by decide)

/-- C7 witness: the amended theorem applied at a concrete heap — a fresh
result array with an empty query but an active sort column, the model's
own array returned when both the query is empty and sorting is skipped,
and a pre-existing cell left unchanged under a non-empty query. -/
theorem c7_no_mutation_witness :
    (1 ≤ (filterAndSortRowsAlloc [[zebraRow, appleRow, bananaRow]]
        { headers := ["iri", "label"], keys := ["iri", "label"], rowsRef := 0 }
        "" (some 1) "asc").2) ∧
    ((filterAndSortRowsAlloc [[zebraRow, appleRow, bananaRow]]
        { headers := ["iri", "label"], keys := ["iri", "label"], rowsRef := 0 }
        "" none "asc").2 = 0) ∧
    ((filterAndSortRowsAlloc [[zebraRow, appleRow, bananaRow]]
        { headers := ["iri", "label"], keys := ["iri", "label"], rowsRef := 0 }
        "an" none "asc").1.get? 0 = some [zebraRow, appleRow, bananaRow]) :=
  ⟨(c7_no_mutation [[zebraRow, appleRow, bananaRow]]
      { headers := ["iri", "label"], keys := ["iri", "label"], rowsRef := 0 }
      "" (some 1) "asc").2.1 (Or.inr (by decide)),
   (c7_no_mutation [[zebraRow, appleRow, bananaRow]]
      { headers := ["iri", "label"], keys := ["iri", "label"], rowsRef := 0 }
      "" none "asc").2.2 ⟨rfl, by decide⟩,
   (c7_no_mutation [[zebraRow, appleRow, bananaRow]]
      { headers := ["iri", "label"], keys := ["iri", "label"], rowsRef := 0 }
      "an" none "asc").1 0 (by decide)⟩

end TabulateRdf
